import Mathlib

/-!
Verification of the Lexical Merge Engine of `scripts/build_es_dictionary.py`.

The script merges a curated Spanish dictionary, FreeLing analyzer entries and
the doozan frequency corpus into one mapping `word -> entry`.  This file embeds
the engine's functions (tag decoding, candidate selection, frequency
normalization, noise heuristics, merge resolution, validation) and proves the
specified properties about them.

Embedding conventions:
* Python `str` is Lean `String`; string comparison is the lexicographic order
  on the underlying `List Char` (`String.lt_iff_toList_lt` connects the two).
* Python `int` is `ℤ` (and `ℕ` where the source guarantees non-negativity).
* Python dicts are insertion-ordered association lists; `dict.get` is
  first-match lookup.  The mutable `Entry` objects shared between the curated
  dict and the merged dict are modelled as a heap: a store `List Entry`
  addressed by index, with both dicts mapping words to store indices.
* `math.log10` arithmetic is modelled exactly over the integers: for
  `2 ≤ M` and `2 ≤ c`, `int((log10 c / log10 M) * 1000) = ⌊1000·log_M c⌋ =
  ⌊log_M (c^1000)⌋ = Nat.log M (c ^ 1000)` (the float in the source is an
  approximation of this exact value).
* The global `stats` counter dict is threaded explicitly.
* `str.strip` / `str.lower` / `str.isspace` are modelled on the whitespace
  and case table of `Char` (the source only meets ASCII tags and words plus
  accented vowels, on which the two tables agree).
-/

/-! ## Python string primitives -/

/-- `str.strip()`: drop leading and trailing whitespace. -/
def py_strip (s : String) : String :=
  ⟨((s.data.dropWhile Char.isWhitespace).reverse.dropWhile Char.isWhitespace).reverse⟩

/-- `str.lower()`. -/
def py_lower (s : String) : String := ⟨s.data.map Char.toLower⟩

/-- `any(ch.isspace() for ch in s)`. -/
def has_space (s : String) : Bool := s.data.any Char.isWhitespace

/-- `str.startswith(p)`. -/
def str_starts (s p : String) : Bool := p.data.isPrefixOf s.data

/-- `char_at(text, idx)`: `text[idx]` when in range, else the empty string
(modelled as `none`). -/
def char_at (s : String) (i : ℕ) : Option Char := s.data.get? i

/-! ## Association lists (Python dicts) -/

/-- `d.get(k)` / `k in d`: first-match lookup in an insertion-ordered dict. -/
def alookup {α : Type} (d : List (String × α)) (k : String) : Option α :=
  match d with
  | [] => none
  | (k', v) :: rest => if k' = k then some v else alookup rest k

/-- `d[k] = v` for a key already present: replace the value in place
(Python dicts keep the original insertion position). -/
def aupdate {α : Type} (d : List (String × α)) (k : String) (v : α) :
    List (String × α) :=
  match d with
  | [] => []
  | (k', v') :: rest => if k' = k then (k', v) :: rest else (k', v') :: aupdate rest k v

/-- Diagnostics counters (`stats` dict). -/
abbrev Stats := List (String × ℤ)

/-- `stats[k] += 1` (the source initialises every key up front, so the
missing-key `KeyError` path is unreachable; we append in that case). -/
def bump (s : Stats) (k : String) : Stats :=
  match s with
  | [] => [(k, 1)]
  | (k', v) :: rest => if k' = k then (k', v + 1) :: rest else (k', v) :: bump rest k

/-! ## Data model -/

/-- `Entry` dataclass. -/
structure Entry where
  word : String
  category : String
  gender : String
  number : String
  lema : String  -- the source field is named after the lemma of the word
  frequency : ℤ
  source : String
  deriving DecidableEq, Repr

/-- `Candidate` dataclass. -/
structure Candidate where
  word : String
  lema : String  -- the source field is named after the lemma of the word
  category : String
  gender : String
  number : String
  tag : String
  source_file : String
  deriving DecidableEq, Repr

/-- `CATEGORY_PRIORITY` table. -/
def CATEGORY_PRIORITY : List (String × ℕ) :=
  [("sustantivo", 1), ("adjetivo", 2), ("adverbio", 3), ("articulo", 4),
   ("determinante", 5), ("pronombre", 6), ("preposicion", 7),
   ("conjuncion", 8), ("verbo", 9), ("otro", 10)]

/-- `CATEGORY_PRIORITY.get(c, 999)`. -/
def category_priority (c : String) : ℕ := (alookup CATEGORY_PRIORITY c).getD 999

/-! ## Tag Decoder -/

/-- `map_gender`. -/
def map_gender (c : Option Char) : String :=
  match c with
  | none => "_"
  | some c => if c.toUpper = 'M' then "m" else if c.toUpper = 'F' then "f" else "_"

/-- `map_number`. -/
def map_number (c : Option Char) : String :=
  match c with
  | none => "_"
  | some c => if c.toUpper = 'S' then "s" else if c.toUpper = 'P' then "p" else "_"

/-- `parse_freeling_candidate(form, lemma, tag, source_file, stats)`:
decode one FreeLing record into a `Candidate`, or reject it (`none`). -/
def parse_freeling_candidate (form lema tag source_file : String)
    (stats : Stats) : Option Candidate × Stats :=
  let form := py_lower (py_strip form)
  let lema := py_lower (py_strip lema)
  let tag := py_strip tag
  let mk : String → String → String → Stats → Option Candidate × Stats :=
    fun category gender number st =>
      (some ⟨form, lema, category, gender, number, tag, source_file⟩, st)
  if form = "" ∨ tag = "" ∨ has_space form then (none, stats)
  else if str_starts tag "NP" then (none, bump stats "freeling_skipped_np")
  else if str_starts tag "NC" then
    mk "sustantivo" (map_gender (char_at tag 2)) (map_number (char_at tag 3)) stats
  else if str_starts tag "AQ" ∨ str_starts tag "AO" then
    mk "adjetivo" (map_gender (char_at tag 3)) (map_number (char_at tag 4)) stats
  else if str_starts tag "DA" then
    mk "articulo" (map_gender (char_at tag 3)) (map_number (char_at tag 4)) stats
  else if str_starts tag "DD" ∨ str_starts tag "DI" ∨ str_starts tag "DP" ∨
      str_starts tag "DT" ∨ str_starts tag "DE" then
    mk "determinante" (map_gender (char_at tag 3)) (map_number (char_at tag 4)) stats
  else if str_starts tag "PP" ∨ str_starts tag "PD" ∨ str_starts tag "PR" ∨
      str_starts tag "PT" ∨ str_starts tag "PI" ∨ str_starts tag "PE" then
    mk "pronombre" (map_gender (char_at tag 3)) (map_number (char_at tag 4)) stats
  else if str_starts tag "SP" then mk "preposicion" "_" "_" stats
  else if str_starts tag "CC" ∨ str_starts tag "CS" then mk "conjuncion" "_" "_" stats
  else if str_starts tag "RG" ∨ str_starts tag "RN" then mk "adverbio" "_" "_" stats
  else if str_starts tag "I" then mk "otro" "_" "_" stats
  else if str_starts tag "V" then
    -- Keep only infinitives as verbs; participles become adjectives.
    if char_at tag 2 = some 'N' then
      mk "verbo" "_" "_" (bump stats "freeling_infinitive_candidates")
    else if char_at tag 2 = some 'P' then
      -- number at index 5, gender at index 6
      mk "adjetivo" (map_gender (char_at tag 6)) (map_number (char_at tag 5))
        (bump stats "freeling_participle_candidates")
    else (none, bump stats "freeling_skipped_conjugated_verbs")
  else (none, bump stats "freeling_skipped_unknown_tag")

/-! ## Candidate Selector -/

/-- One step of Python's lexicographic tuple comparison: compare a component,
fall through to `rest` on equality. -/
def lexStep {α : Type} [LT α] [DecidableRel (@LT.lt α inferInstance)]
    (a b : α) (rest : Bool) : Bool :=
  if a < b then true else if b < a then false else rest

/-- The sort key built by `select_best_candidate.score`:
`(CATEGORY_PRIORITY.get(category, 999), -specificity, category, gender,
number, lemma, tag)`. -/
def score (c : Candidate) : ℕ × ℤ × String × String × String × String × String :=
  let specificity : ℤ :=
    (if c.gender ≠ "_" then 1 else 0) + (if c.number ≠ "_" then 1 else 0)
  (category_priority c.category, -specificity, c.category, c.gender, c.number,
   c.lema, c.tag)

/-- Python's `<` on the 7-component score tuples (strings compared
lexicographically by code point). -/
def scoreLt (a b : ℕ × ℤ × String × String × String × String × String) : Bool :=
  lexStep a.1 b.1 <| lexStep a.2.1 b.2.1 <|
    lexStep a.2.2.1.data b.2.2.1.data <| lexStep a.2.2.2.1.data b.2.2.2.1.data <|
      lexStep a.2.2.2.2.1.data b.2.2.2.2.1.data <|
        lexStep a.2.2.2.2.2.1.data b.2.2.2.2.2.1.data <|
          lexStep a.2.2.2.2.2.2.data b.2.2.2.2.2.2.data false

/-- One comparison step of `min(candidates, key=score)`: the next element
replaces the current minimum exactly when its key is strictly smaller. -/
def select_step (best c : Candidate) : Candidate :=
  if scoreLt (score c) (score best) then c else best

/-- `select_best_candidate(candidates)`: `min(candidates, key=score)`.
Python's `min` scans left to right and keeps the first element whose key is
strictly smaller than the current minimum's; it raises on an empty list
(modelled as `none`; the callers only pass non-empty groups). -/
def select_best_candidate (candidates : List Candidate) : Option Candidate :=
  match candidates with
  | [] => none
  | h :: t => some (t.foldl select_step h)

/-! ## Text parsing helpers -/

/-- `str.split(sep, maxsplit)` (auxiliary): once the split budget is spent the
remaining separators stay inside the final part. -/
def py_split_aux (sep : Char) : List Char → ℕ → List Char → List String
  | [], _, acc => [String.mk acc.reverse]
  | c :: cs, fuel, acc =>
    if c = sep then
      match fuel with
      | 0 => py_split_aux sep cs 0 (c :: acc)
      | f + 1 => String.mk acc.reverse :: py_split_aux sep cs f []
    else py_split_aux sep cs fuel (c :: acc)

/-- `s.split(sep, maxsplit)`. -/
def py_split (s : String) (sep : Char) (maxsplit : ℕ) : List String :=
  py_split_aux sep s.data maxsplit []

/-- `s.split()` (auxiliary): split on whitespace runs, dropping empties. -/
def py_split_ws_aux : List Char → List Char → List String
  | [], acc => if acc.isEmpty then [] else [String.mk acc.reverse]
  | c :: cs, acc =>
    if c.isWhitespace then
      if acc.isEmpty then py_split_ws_aux cs []
      else String.mk acc.reverse :: py_split_ws_aux cs []
    else py_split_ws_aux cs (c :: acc)

/-- `s.split()`. -/
def py_split_ws (s : String) : List String := py_split_ws_aux s.data []

/-- Digits of a decimal numeral (all characters must be ASCII digits). -/
def digits_to_nat (ds : List Char) : Option ℕ :=
  if ds.isEmpty then none
  else if ds.all Char.isDigit then
    some (ds.foldl (fun acc c => acc * 10 + (c.toNat - 48)) 0)
  else none

/-- `int(s)`: optional sign then decimal digits, surrounding whitespace
ignored; anything else raises `ValueError` (modelled as `none`). -/
def py_int (s : String) : Option ℤ :=
  match (py_strip s).data with
  | '+' :: ds => (digits_to_nat ds).map Int.ofNat
  | '-' :: ds => (digits_to_nat ds).map (fun n => -(n : ℤ))
  | ds => (digits_to_nat ds).map Int.ofNat

/-! ## Curated dictionary parser -/

/-- Field extraction of one line of `parse_current_dictionary`; `none` for
blank lines, comment lines and lines with an empty word field. -/
def parse_current_line (raw : String) : Option Entry :=
  let line := py_strip raw
  if line = "" ∨ str_starts line "#" then none
  else
    let parts := py_split line '|' 5
    let word := py_lower (py_strip (parts.getD 0 ""))
    if word = "" then none
    else
      let category :=
        match parts.get? 1 with
        | some p => if py_strip p ≠ "" then py_strip p else "otro"
        | none => "otro"
      let gender :=
        match parts.get? 2 with
        | some p => if py_strip p ≠ "" then py_strip p else "_"
        | none => "_"
      let number :=
        match parts.get? 3 with
        | some p => if py_strip p ≠ "" then py_strip p else "_"
        | none => "_"
      let lema :=
        match parts.get? 4 with
        | some p => py_strip p
        | none => ""
      let frequency : ℤ :=
        match parts.get? 5 with
        | some p =>
          match py_int p with
          | some n => max 1 n
          | none => 1
        | none => 1
      some ⟨word, category, gender, number, lema, frequency, "current"⟩

/-- One line of `parse_current_dictionary` acting on the heap state
`(store, current, stats)`.  A duplicate word keeps the entry with the higher
frequency (strictly greater replaces). -/
def parse_current_step (st : List Entry × List (String × ℕ) × Stats)
    (line : String) : List Entry × List (String × ℕ) × Stats :=
  match parse_current_line line with
  | none => st
  | some entry =>
    let (store, current, stats) := st
    match alookup current entry.word with
    | some oldId =>
      let stats := bump stats "current_duplicates"
      match store.get? oldId with
      | none => (store, current, stats)  -- ids always index the store
      | some old =>
        -- Mirror Trie behavior: keep duplicate with higher frequency.
        if old.frequency < entry.frequency then
          (store ++ [entry], aupdate current entry.word store.length, stats)
        else (store, current, stats)
    | none => (store ++ [entry], current ++ [(entry.word, store.length)], stats)

/-- `parse_current_dictionary(path, stats)` over the decoded lines. -/
def parse_current_dictionary (lines : List String) (stats : Stats) :
    List Entry × List (String × ℕ) × Stats :=
  lines.foldl parse_current_step ([], [], stats)

/-! ## FreeLing lexicon parser -/

/-- `by_word.setdefault(cand.word, []).append(cand)`. -/
def append_candidate (byWord : List (String × List Candidate)) (c : Candidate) :
    List (String × List Candidate) :=
  match alookup byWord c.word with
  | some cs => aupdate byWord c.word (cs ++ [c])
  | none => byWord ++ [(c.word, [c])]

/-- One line of `parse_freeling_files` for the file called `name`. -/
def parse_freeling_line (name : String)
    (st : List (String × List Candidate) × Stats) (raw : String) :
    List (String × List Candidate) × Stats :=
  let (byWord, stats) := st
  let line := py_strip raw
  if line = "" ∨ str_starts line "#" then st
  else
    match py_split_ws line with
    | form :: lema :: tag :: _ =>
      match parse_freeling_candidate form lema tag name stats with
      | (none, stats') => (byWord, stats')
      | (some c, stats') => (append_candidate byWord c, bump stats' "freeling_kept_candidates")
    | _ => (byWord, bump stats "freeling_bad_lines")

/-- `parse_freeling_files(files, stats)` over the decoded lines of each file. -/
def parse_freeling_files (files : List (String × List String)) (stats : Stats) :
    List (String × List Candidate) × Stats :=
  files.foldl (fun st file => file.2.foldl (parse_freeling_line file.1) st) ([], stats)

/-! ## Frequency Normalizer -/

/-- `d[k] = v`: update in place if present, else append. -/
def adict_set {α : Type} (d : List (String × α)) (k : String) (v : α) :
    List (String × α) :=
  match alookup d k with
  | some _ => aupdate d k v
  | none => d ++ [(k, v)]

/-- The normalization of one raw count `c` against the corpus maximum
`max_raw`: `1` when `c ≤ 1`, otherwise
`max(1, min(1000, int((log10 c / log10 max_raw) * 1000)))`.
The float expression is modelled exactly:
`int((log10 c / log10 M) * 1000) = ⌊1000·log_M c⌋ = ⌊log_M (c^1000)⌋ =
Nat.log M (c ^ 1000)` for `2 ≤ c` (`int` truncates, and the value is
non-negative here). -/
def normalize_count (max_raw c : ℤ) : ℤ :=
  if c ≤ 1 then 1
  else max 1 (min 1000 (Nat.log max_raw.toNat (c.toNat ^ 1000) : ℤ))

/-- One line of `load_doozan_frequency` acting on
`(raw_freq, max_raw, stats)`. -/
def load_doozan_step (st : List (String × ℤ) × ℤ × Stats) (raw : String) :
    List (String × ℤ) × ℤ × Stats :=
  let (raw_freq, max_raw, stats) := st
  let line := py_strip raw
  if line = "" ∨ str_starts line "#" then st
  else
    let split_result : Option (String × String) :=
      if line.data.contains '\t' then
        some ((py_split line '\t' 1).getD 0 "", (py_split line '\t' 1).getD 1 "")
      else
        match py_split_ws line with
        | w :: c :: _ => some (w, c)
        | _ => none
    match split_result with
    | none => (raw_freq, max_raw, bump stats "doozan_bad_lines")
    | some (w, count_text) =>
      let word := py_lower (py_strip w)
      if word = "" then st
      else
        match py_int count_text with
        | none => (raw_freq, max_raw, bump stats "doozan_bad_lines")
        | some count =>
          if count ≤ 0 then st
          else
            let better :=
              match alookup raw_freq word with
              | none => true
              | some prev => decide (prev < count)
            if better then
              (adict_set raw_freq word count,
               if max_raw < count then count else max_raw, stats)
            else st

/-- `load_doozan_frequency(path, stats)` over the decoded lines: returns
`(normalized, raw_freq)` plus the threaded stats, or aborts when the corpus
yields no positive count. -/
def load_doozan_frequency (lines : List String) (stats : Stats) :
    Except String (List (String × ℤ) × List (String × ℤ) × Stats) :=
  let fold := lines.foldl load_doozan_step ([], 0, stats)
  let raw_freq := fold.1
  let max_raw := fold.2.1
  if max_raw ≤ 0 then Except.error "doozan frequency file had no positive counts"
  else
    let stats := adict_set fold.2.2 "doozan_max_raw" max_raw
    Except.ok (raw_freq.map (fun p => (p.1, normalize_count max_raw p.2)), raw_freq, stats)

/-! ## Noise Heuristics -/

/-- The accented counterparts table `accent_map`. -/
def accent_map (ch : Char) : Option Char :=
  if ch = 'a' then some 'á'
  else if ch = 'e' then some 'é'
  else if ch = 'i' then some 'í'
  else if ch = 'o' then some 'ó'
  else if ch = 'u' then some 'ú'
  else none

/-- The accented vowels `"áéíóú"`. -/
def accented_vowels : List Char := ['á', 'é', 'í', 'ó', 'ú']

/-- The body of the position scan of `is_probable_unaccented_verb_variant`:
the accented `variant` is a probable source verb when it is a curated entry
with category `verbo` whose raw corpus count reaches
`max(2000, raw_word * 5)`. -/
def accent_hit (store : List Entry) (current : List (String × ℕ))
    (doozan_raw : List (String × ℤ)) (raw_word : ℤ) (variant : String) : Bool :=
  match alookup current variant with
  | none => false
  | some id =>
    match store.get? id with
    | none => false
    | some e =>
      if e.category = "verbo" then
        decide (max 2000 (raw_word * 5) ≤ (alookup doozan_raw variant).getD 0)
      else false

/-- The position scan of `is_probable_unaccented_verb_variant`: for each bare
vowel of `before ++ rest` (positions of `rest`, `before` already scanned),
substitute its accented counterpart and test the curated entry and the raw
frequency threshold. -/
def accent_probe (store : List Entry) (current : List (String × ℕ))
    (doozan_raw : List (String × ℤ)) (raw_word : ℤ) :
    List Char → List Char → Bool
  | _, [] => false
  | before, ch :: rest =>
    let hit :=
      match accent_map ch with
      | none => false
      | some repl =>
        accent_hit store current doozan_raw raw_word ⟨before ++ repl :: rest⟩
    if hit then true else accent_probe store current doozan_raw raw_word (before ++ [ch]) rest

/-- `is_probable_unaccented_verb_variant(word, category, current, doozan_raw)`.
The curated dict is the pair `(store, current)` of the heap model. -/
def is_probable_unaccented_verb_variant (word category : String)
    (store : List Entry) (current : List (String × ℕ))
    (doozan_raw : List (String × ℤ)) : Bool :=
  if ¬ (category = "sustantivo" ∨ category = "adjetivo" ∨
        category = "adverbio" ∨ category = "otro") then false
  else if word.data.any (fun ch => accented_vowels.contains ch) then false
  else
    accent_probe store current doozan_raw ((alookup doozan_raw word).getD 0) [] word.data

/-! ## Merge Resolver -/

/-- One word group of `merge_entries` acting on `(store, final, stats)`.
`current` is only read (its entry objects live in the store and stay shared
with `final`). -/
def merge_step (current : List (String × ℕ)) (vocab : List String)
    (doozan_raw : List (String × ℤ))
    (st : List Entry × List (String × ℕ) × Stats)
    (group : String × List Candidate) : List Entry × List (String × ℕ) × Stats :=
  let (store, final, stats) := st
  match select_best_candidate group.2 with
  | none => st  -- unreachable: candidate groups are never empty
  | some best =>
    let stats := bump stats "freeling_unique_forms"
    match alookup final group.1 with
    | some id =>
      let stats := bump stats "conflicts_with_current"
      -- Preserve current category/gender/number. Fill lemma only if missing.
      match store.get? id with
      | none => (store, final, stats)  -- ids always index the store
      | some e =>
        if e.lema = "" ∧ best.lema ≠ "" then
          (store.set id { e with lema := best.lema }, final,
           bump stats "filled_current_lemmas_from_freeling")
        else (store, final, stats)
    | none =>
      -- Keep new infinitives only when frequency-backed by doozan.
      if best.category = "verbo" ∧ ¬ vocab.contains group.1 then
        (store, final, bump stats "skipped_infinitive_not_in_doozan")
      else if is_probable_unaccented_verb_variant group.1 best.category store
          current doozan_raw then
        (store, final, bump stats "skipped_probable_unaccented_typos")
      else
        (store ++ [⟨group.1, best.category, best.gender, best.number, best.lema,
                    1, "freeling"⟩],
         final ++ [(group.1, store.length)], bump stats "added_from_freeling")

/-- `merge_entries(current, freeling_candidates, doozan_vocab, doozan_raw,
stats)`: start from a shallow copy of `current` (same store indices, i.e. the
same `Entry` objects) and fold in the candidate groups. -/
def merge_entries (store : List Entry) (current : List (String × ℕ))
    (freeling_candidates : List (String × List Candidate)) (vocab : List String)
    (doozan_raw : List (String × ℤ)) (stats : Stats) :
    List Entry × List (String × ℕ) × Stats :=
  freeling_candidates.foldl (merge_step current vocab doozan_raw)
    (store, current, stats)

/-- One entry of `assign_frequencies` acting on the store: corpus-backed words
take the normalized score, inferred words fall back to 1, curated words keep
their (clamped) existing frequency. -/
def assign_step (doozan_freq : List (String × ℤ)) (store : List Entry)
    (p : String × ℕ) : List Entry :=
  match store.get? p.2 with
  | none => store  -- ids always index the store
  | some e =>
    match alookup doozan_freq p.1 with
    | some freq => store.set p.2 { e with frequency := freq }
    | none =>
      if e.source = "freeling" then store.set p.2 { e with frequency := 1 }
      else store.set p.2 { e with frequency := max 1 e.frequency }

/-- `assign_frequencies(entries, doozan_freq, stats)` (the stats bumps do not
touch the store and are threaded separately in `build`; they are omitted here
because each branch performs exactly one bump of a distinct counter). -/
def assign_frequencies (store : List Entry) (entries : List (String × ℕ))
    (doozan_freq : List (String × ℤ)) : List Entry :=
  entries.foldl (assign_step doozan_freq) store

/-! ## Validator -/

/-- The anchor table of `validate`: word, expected category, gender, number. -/
def validate_checks : List (String × Option String × Option String × Option String) :=
  [("agua", some "sustantivo", some "f", none),
   ("casa", some "sustantivo", none, none),
   ("el", some "articulo", some "m", some "s")]

/-- One anchor check of `validate`. -/
def validate_check (store : List Entry) (entries : List (String × ℕ))
    (c : String × Option String × Option String × Option String) :
    Except String Unit :=
  let (word, exp_cat, exp_gen, exp_num) := c
  match alookup entries word with
  | none => Except.error ("Validation failed: missing required word " ++ word)
  | some id =>
    match store.get? id with
    | none => Except.error ("Validation failed: missing required word " ++ word)
    | some e =>
      if (match exp_cat with | some c => decide (e.category ≠ c) | none => false) then
        Except.error ("Validation failed: " ++ word ++ " category " ++ e.category)
      else if (match exp_gen with | some g => decide (e.gender ≠ g) | none => false) then
        Except.error ("Validation failed: " ++ word ++ " gender " ++ e.gender)
      else if (match exp_num with | some n => decide (e.number ≠ n) | none => false) then
        Except.error ("Validation failed: " ++ word ++ " number " ++ e.number)
      else Except.ok ()

/-- `validate(entries)`: check the anchors in order, abort on the first
failure. -/
def validate (store : List Entry) (entries : List (String × ℕ)) :
    Except String Unit :=
  validate_checks.foldl
    (fun acc c => match acc with
      | Except.error e => Except.error e
      | Except.ok _ => validate_check store entries c)
    (Except.ok ())

/-! ## Output -/

/-- `a ≤ b` on Python strings. -/
def str_le (a b : String) : Bool := ! decide (b.data < a.data)

/-- Insertion into a sorted list of words. -/
def insert_sorted (w : String) : List String → List String
  | [] => [w]
  | x :: xs => if str_le w x then w :: x :: xs else x :: insert_sorted w xs

/-- `sorted(keys)`. -/
def sort_strings (l : List String) : List String := l.foldr insert_sorted []

/-- `write_output(path, entries, ...)`: the record stream actually written —
one realized entry per key in sorted key order, frequency clamped to `≥ 1`
(`max(1, int(e.frequency))` in the formatted line).  File-system concerns
(backup rotation, header comments) are plumbing and not modelled. -/
def write_output (store : List Entry) (entries : List (String × ℕ)) :
    List Entry :=
  (sort_strings (entries.map Prod.fst)).filterMap fun w =>
    match alookup entries w with
    | none => none  -- unreachable: keys come from the dict itself
    | some id =>
      match store.get? id with
      | none => none  -- ids always index the store
      | some e => some { e with frequency := max 1 e.frequency }

/-! ## Build pipeline -/

/-- The `stats` dict initialised by `build`. -/
def init_stats : Stats :=
  [("freeling_files", 0), ("freeling_kept_candidates", 0),
   ("freeling_unique_forms", 0), ("freeling_infinitive_candidates", 0),
   ("freeling_participle_candidates", 0), ("freeling_skipped_conjugated_verbs", 0),
   ("freeling_skipped_unknown_tag", 0), ("freeling_skipped_np", 0),
   ("freeling_bad_lines", 0), ("doozan_bad_lines", 0),
   ("conflicts_with_current", 0), ("added_from_freeling", 0),
   ("filled_current_lemmas_from_freeling", 0), ("freq_from_doozan", 0),
   ("freq_missing_freeling_to_1", 0), ("freq_kept_current", 0),
   ("current_duplicates", 0), ("skipped_infinitive_not_in_doozan", 0),
   ("skipped_probable_unaccented_typos", 0)]

/-- `build(args)` restricted to the engine: the three decoded input streams in,
either a fatal error (nothing written) or the written record stream out.
Network retrieval, caching, CLI flags and backups are plumbing outside the
engine. -/
def build (current_lines : List String)
    (freeling_files : List (String × List String))
    (doozan_lines : List String) : Except String (List Entry) :=
  let stats := adict_set init_stats "freeling_files" (freeling_files.length : ℤ)
  let pc := parse_current_dictionary current_lines stats
  let store0 := pc.1
  let current := pc.2.1
  match load_doozan_frequency doozan_lines pc.2.2 with
  | Except.error e => Except.error e
  | Except.ok (doozan_freq, doozan_raw, stats) =>
    let doozan_vocab := doozan_freq.map Prod.fst
    let pf := parse_freeling_files freeling_files stats
    let mg := merge_entries store0 current pf.1 doozan_vocab doozan_raw pf.2
    let store1 := mg.1
    let final := mg.2.1
    let store2 := assign_frequencies store1 final doozan_freq
    match validate store2 final with
    | Except.error e => Except.error e
    | Except.ok _ => Except.ok (write_output store2 final)

/-! ## Order facts about the selection key -/

theorem lexStep_true_iff {α : Type} [LinearOrder α] {a b : α} {r : Bool} :
    lexStep a b r = true ↔ a < b ∨ (a = b ∧ r = true) := by
  unfold lexStep
  rcases lt_trichotomy a b with h | h | h
  · simp [h, ne_of_lt h]
  · simp [h, lt_irrefl]
  · simp [h, not_lt_of_gt h, ne_of_gt h]

theorem lexStep_false_iff {α : Type} [LinearOrder α] {a b : α} {r : Bool} :
    lexStep a b r = false ↔ b < a ∨ (a = b ∧ r = false) := by
  unfold lexStep
  rcases lt_trichotomy a b with h | h | h
  · simp [h, not_lt_of_gt h, ne_of_lt h]
  · simp [h, lt_irrefl]
  · simp [h, not_lt_of_gt h, ne_of_gt h]

theorem lexStep_self {α : Type} [LinearOrder α] (a : α) (r : Bool) :
    lexStep a a r = r := by
  unfold lexStep; simp

theorem lexStep_trans_true {α : Type} [LinearOrder α] {a b c : α}
    {r₁ r₂ r₃ : Bool} (h : r₁ = true → r₂ = true → r₃ = true)
    (h₁ : lexStep a b r₁ = true) (h₂ : lexStep b c r₂ = true) :
    lexStep a c r₃ = true := by
  rw [lexStep_true_iff] at h₁ h₂ ⊢
  rcases h₁ with h₁ | ⟨rfl, hr₁⟩
  · rcases h₂ with h₂ | ⟨rfl, hr₂⟩
    · exact Or.inl (h₁.trans h₂)
    · exact Or.inl h₁
  · rcases h₂ with h₂ | ⟨rfl, hr₂⟩
    · exact Or.inl h₂
    · exact Or.inr ⟨rfl, h hr₁ hr₂⟩

theorem lexStep_trans_false {α : Type} [LinearOrder α] {a b c : α}
    {r₁ r₂ r₃ : Bool} (h : r₁ = false → r₂ = false → r₃ = false)
    (h₁ : lexStep a b r₁ = false) (h₂ : lexStep b c r₂ = false) :
    lexStep a c r₃ = false := by
  rw [lexStep_false_iff] at h₁ h₂ ⊢
  rcases h₁ with h₁ | ⟨rfl, hr₁⟩
  · rcases h₂ with h₂ | ⟨rfl, hr₂⟩
    · exact Or.inl (h₂.trans h₁)
    · exact Or.inl h₁
  · rcases h₂ with h₂ | ⟨rfl, hr₂⟩
    · exact Or.inl h₂
    · exact Or.inr ⟨rfl, h hr₁ hr₂⟩

theorem lexStep_antisymm {α : Type} [LinearOrder α] {a b : α} {r₁ r₂ : Bool}
    (h₁ : lexStep a b r₁ = false) (h₂ : lexStep b a r₂ = false) :
    a = b ∧ r₁ = false ∧ r₂ = false := by
  rw [lexStep_false_iff] at h₁ h₂
  rcases h₁ with h₁ | ⟨rfl, hr₁⟩
  · rcases h₂ with h₂ | ⟨h₂, hr₂⟩
    · exact absurd h₁ (not_lt_of_gt h₂)
    · exact absurd h₁ (h₂ ▸ lt_irrefl b)
  · rcases h₂ with h₂ | ⟨h₂, hr₂⟩
    · exact absurd h₂ (lt_irrefl a)
    · exact ⟨rfl, hr₁, hr₂⟩

theorem scoreLt_irrefl (s : ℕ × ℤ × String × String × String × String × String) :
    scoreLt s s = false := by
  unfold scoreLt
  simp only [lexStep_self]

theorem scoreLt_trans {a b c : ℕ × ℤ × String × String × String × String × String}
    (h₁ : scoreLt a b = true) (h₂ : scoreLt b c = true) : scoreLt a c = true := by
  unfold scoreLt at h₁ h₂ ⊢
  refine lexStep_trans_true ?_ h₁ h₂; intro h₁ h₂
  refine lexStep_trans_true ?_ h₁ h₂; intro h₁ h₂
  refine lexStep_trans_true ?_ h₁ h₂; intro h₁ h₂
  refine lexStep_trans_true ?_ h₁ h₂; intro h₁ h₂
  refine lexStep_trans_true ?_ h₁ h₂; intro h₁ h₂
  refine lexStep_trans_true ?_ h₁ h₂; intro h₁ h₂
  refine lexStep_trans_true ?_ h₁ h₂; intro h₁ h₂
  exact absurd h₁ (by simp)

theorem scoreLt_neg_trans {a b c : ℕ × ℤ × String × String × String × String × String}
    (h₁ : scoreLt a b = false) (h₂ : scoreLt b c = false) : scoreLt a c = false := by
  unfold scoreLt at h₁ h₂ ⊢
  refine lexStep_trans_false ?_ h₁ h₂; intro h₁ h₂
  refine lexStep_trans_false ?_ h₁ h₂; intro h₁ h₂
  refine lexStep_trans_false ?_ h₁ h₂; intro h₁ h₂
  refine lexStep_trans_false ?_ h₁ h₂; intro h₁ h₂
  refine lexStep_trans_false ?_ h₁ h₂; intro h₁ h₂
  refine lexStep_trans_false ?_ h₁ h₂; intro h₁ h₂
  refine lexStep_trans_false ?_ h₁ h₂; intro h₁ h₂
  rfl

theorem scoreLt_antisymm
    {a b : ℕ × ℤ × String × String × String × String × String}
    (h₁ : scoreLt a b = false) (h₂ : scoreLt b a = false) : a = b := by
  unfold scoreLt at h₁ h₂
  obtain ⟨e1, h₁, h₂⟩ := lexStep_antisymm h₁ h₂
  obtain ⟨e2, h₁, h₂⟩ := lexStep_antisymm h₁ h₂
  obtain ⟨e3, h₁, h₂⟩ := lexStep_antisymm h₁ h₂
  obtain ⟨e4, h₁, h₂⟩ := lexStep_antisymm h₁ h₂
  obtain ⟨e5, h₁, h₂⟩ := lexStep_antisymm h₁ h₂
  obtain ⟨e6, h₁, h₂⟩ := lexStep_antisymm h₁ h₂
  obtain ⟨e7, h₁, h₂⟩ := lexStep_antisymm h₁ h₂
  obtain ⟨a1, a2, a3, a4, a5, a6, a7⟩ := a
  obtain ⟨b1, b2, b3, b4, b5, b6, b7⟩ := b
  simp only [Prod.mk.injEq] at *
  exact ⟨e1, e2, String.toList_inj.mp e3, String.toList_inj.mp e4,
    String.toList_inj.mp e5, String.toList_inj.mp e6, String.toList_inj.mp e7⟩

/-! ## Selector lemmas -/

theorem select_fold_mem (t : List Candidate) (h : Candidate) :
    t.foldl select_step h ∈ h :: t := by
  induction t generalizing h with
  | nil => simp
  | cons x t ih =>
    simp only [List.foldl_cons]
    have hmem := ih (select_step h x)
    have hstep : select_step h x = h ∨ select_step h x = x := by
      unfold select_step; split <;> simp
    rcases List.mem_cons.mp hmem with h' | h'
    · rcases hstep with h'' | h'' <;> rw [h', h''] <;> simp
    · simp [h']

theorem select_fold_min (t : List Candidate) (h : Candidate) :
    ∀ c ∈ h :: t, scoreLt (score c) (score (t.foldl select_step h)) = false := by
  induction t generalizing h with
  | nil =>
    intro c hc
    rcases List.mem_cons.mp hc with rfl | h'
    · exact scoreLt_irrefl (score c)
    · cases h'
  | cons x t ih =>
    intro c hc
    simp only [List.foldl_cons]
    have IH := ih (select_step h x)
    rcases List.mem_cons.mp hc with rfl | hc'
    · -- c = h
      by_cases hcond : scoreLt (score x) (score c) = true
      · have hx : select_step c x = x := by unfold select_step; rw [if_pos hcond]
        have hxr := IH x (by rw [hx]; exact List.mem_cons_self x t)
        rcases Bool.eq_false_or_eq_true
            (scoreLt (score c) (score (t.foldl select_step (select_step c x)))) with h' | h'
        · exact absurd (scoreLt_trans hcond h') (by rw [hxr]; simp)
        · exact h'
      · have hx : select_step c x = c := by
          unfold select_step
          rw [if_neg (by simpa using hcond)]
        exact IH c (by rw [hx]; exact List.mem_cons_self c t)
    rcases List.mem_cons.mp hc' with rfl | hc''
    · -- c = x
      by_cases hcond : scoreLt (score c) (score h) = true
      · have hx : select_step h c = c := by unfold select_step; rw [if_pos hcond]
        exact IH c (by rw [hx]; exact List.mem_cons_self c t)
      · have hcf : scoreLt (score c) (score h) = false := by simpa using hcond
        have hx : select_step h c = h := by unfold select_step; rw [if_neg (by simp [hcf])]
        have hhr := IH h (by rw [hx]; exact List.mem_cons_self h t)
        exact scoreLt_neg_trans hcf hhr
    · -- c ∈ t
      exact IH c (List.mem_cons_of_mem _ hc'')

/-- `select_best_candidate` returns a member of the list whose key is minimal:
no element of the list has a strictly smaller key. -/
theorem select_best_mem_min (l : List Candidate) (w : Candidate)
    (hw : select_best_candidate l = some w) :
    w ∈ l ∧ ∀ c ∈ l, scoreLt (score c) (score w) = false := by
  cases l with
  | nil => cases hw
  | cons h t =>
    obtain rfl : t.foldl select_step h = w := Option.some.inj hw
    exact ⟨select_fold_mem t h, select_fold_min t h⟩

/-! ## Concrete candidates for witnesses and counterexamples -/

/-- A noun reading of `casa`. -/
def cand_noun : Candidate :=
  ⟨"casa", "casa", "sustantivo", "f", "s", "NCFS000", "MM.nouns"⟩

/-- A verb reading of `casa` (the infinitive lemma `casar`). -/
def cand_verb : Candidate :=
  ⟨"casa", "casar", "verbo", "_", "_", "VMN0000", "MM.verbs"⟩

/-- Two candidates identical on every selection-key field, differing only in
`source_file` (the same record occurring in two FreeLing files). -/
def cand_tie_a : Candidate :=
  ⟨"casa", "casa", "sustantivo", "f", "s", "NCFS000", "MM.a"⟩

/-- See `cand_tie_a`. -/
def cand_tie_b : Candidate :=
  ⟨"casa", "casa", "sustantivo", "f", "s", "NCFS000", "MM.b"⟩

/-- C7: given a non-empty candidate list, `select_best_candidate` returns a
member that is minimal under the selection key `score` — category priority
rank first (`sustantivo < adjetivo < adverbio < articulo < determinante <
pronombre < preposicion < conjuncion < verbo < otro` per
`CATEGORY_PRIORITY`), then greater specificity (negated count of
non-`"_"` gender/number attributes), then lexicographic comparison of
category, gender, number, lemma and raw tag: no candidate in the list has a
strictly smaller key, and the winner's key is `≤` every candidate's key. -/
theorem C7_selector_returns_key_minimal (l : List Candidate) (w : Candidate)
    (hw : select_best_candidate l = some w) :
    w ∈ l ∧ ∀ c ∈ l, scoreLt (score c) (score w) = false ∧
      (scoreLt (score w) (score c) = true ∨ score w = score c) := by
  obtain ⟨hmem, hmin⟩ := select_best_mem_min l w hw
  refine ⟨hmem, fun c hc => ⟨hmin c hc, ?_⟩⟩
  rcases Bool.eq_false_or_eq_true (scoreLt (score w) (score c)) with h' | h'
  · exact Or.inl h'
  · exact Or.inr (scoreLt_antisymm h' (hmin c hc))

/-- Witness for C7 at a concrete input: among a verb and a noun reading the
noun wins (category priority), and its key is minimal. -/
theorem C7_witness :
    cand_noun ∈ [cand_verb, cand_noun] ∧
    scoreLt (score cand_verb) (score cand_noun) = false ∧
    (scoreLt (score cand_noun) (score cand_verb) = true ∨
      score cand_noun = score cand_verb) :=
  ⟨(C7_selector_returns_key_minimal [cand_verb, cand_noun] cand_noun rfl).1,
   (C7_selector_returns_key_minimal [cand_verb, cand_noun] cand_noun rfl).2
     cand_verb (by simp)⟩

/-- C3 counterexample: the claim "the selection does not depend on
presentation order" fails for the Candidate objects themselves.  Two
candidates identical except for `source_file` (a field the selection key
omits) tie on the key, and Python's `min` keeps the first one scanned, so the
two orders of the same two-element set return different winners. -/
theorem C3_counterexample :
    [cand_tie_a, cand_tie_b].Perm [cand_tie_b, cand_tie_a] ∧
    select_best_candidate [cand_tie_a, cand_tie_b] = some cand_tie_a ∧
    select_best_candidate [cand_tie_b, cand_tie_a] = some cand_tie_b ∧
    cand_tie_a ≠ cand_tie_b :=
  ⟨List.Perm.swap cand_tie_b cand_tie_a [], rfl, rfl, by decide⟩

/-- C3 (amended): the selection is order-independent up to the selection key:
under any permutation of the candidate list the winners agree on the whole
key — in particular on category, gender, number, lemma and raw tag, which is
everything the merge step reads.  (Candidates that tie on the full key can
differ in `source_file`, and then the returned object is the first minimal
one in scan order, as the counterexample shows.) -/
theorem C3_selection_key_permutation_invariant (l l' : List Candidate)
    (hp : l.Perm l') (w w' : Candidate)
    (hw : select_best_candidate l = some w)
    (hw' : select_best_candidate l' = some w') :
    score w = score w' ∧ w.category = w'.category ∧ w.gender = w'.gender ∧
    w.number = w'.number ∧ w.lema = w'.lema ∧ w.tag = w'.tag := by
  obtain ⟨hm, hmin⟩ := select_best_mem_min l w hw
  obtain ⟨hm', hmin'⟩ := select_best_mem_min l' w' hw'
  have h1 := hmin' w (hp.subset hm)
  have h2 := hmin w' (hp.symm.subset hm')
  have heq : score w = score w' := scoreLt_antisymm h1 h2
  exact ⟨heq, congrArg (fun p => p.2.2.1) heq, congrArg (fun p => p.2.2.2.1) heq,
    congrArg (fun p => p.2.2.2.2.1) heq, congrArg (fun p => p.2.2.2.2.2.1) heq,
    congrArg (fun p => p.2.2.2.2.2.2) heq⟩

/-- Witness for C3 (amended) at a concrete input: the two orders of the tied
pair return different objects with equal keys. -/
theorem C3_witness :
    score cand_tie_a = score cand_tie_b ∧
    cand_tie_a.category = cand_tie_b.category ∧
    cand_tie_a.gender = cand_tie_b.gender ∧
    cand_tie_a.number = cand_tie_b.number ∧
    cand_tie_a.lema = cand_tie_b.lema ∧ cand_tie_a.tag = cand_tie_b.tag :=
  C3_selection_key_permutation_invariant [cand_tie_a, cand_tie_b]
    [cand_tie_b, cand_tie_a] (List.Perm.swap cand_tie_b cand_tie_a [])
    cand_tie_a cand_tie_b rfl rfl

/-! ## C8: Tag Decoder rejection behaviour -/

/-- The tag prefixes the decoder dispatches on, in source order. -/
def known_tag_starts : List String :=
  ["NP", "NC", "AQ", "AO", "DA", "DD", "DI", "DP", "DT", "DE", "PP", "PD",
   "PR", "PT", "PI", "PE", "SP", "CC", "CS", "RG", "RN", "I", "V"]

/-- A tag beginning with `V` exposes its head character. -/
theorem starts_V_data {t : String} (h : str_starts t "V" = true) :
    ∃ rest, t.data = 'V' :: rest := by
  unfold str_starts at h
  match hd : t.data with
  | [] => rw [hd] at h; simp [List.isPrefixOf] at h
  | a :: as =>
    rw [hd] at h
    simp [List.isPrefixOf] at h
    exact ⟨as, by rw [h]⟩

/-- C8 counterexample: the decoder does not reject a tag containing embedded
whitespace (the source checks the *form*, not the tag, for whitespace): the
record `casa / NC S` is accepted as a noun candidate with no counter change.
And the malformed record with an empty form *is* rejected, but silently —
no diagnostics counter is incremented (`stats` is returned unchanged). -/
theorem C8_counterexample :
    (parse_freeling_candidate "casa" "casa" "NC S" "MM.x" init_stats).1 =
      some (Candidate.mk "casa" "casa" "sustantivo" "_" "s" "NC S" "MM.x") ∧
    (parse_freeling_candidate "casa" "casa" "NC S" "MM.x" init_stats).2 =
      init_stats ∧
    has_space "NC S" = true ∧
    parse_freeling_candidate "" "casa" "NC000" "MM.x" init_stats =
      (none, init_stats) :=
  ⟨rfl, rfl, rfl, rfl⟩

/-- C8 (amended): per-record rejection behaviour of the Tag Decoder, which is
a total function (no per-record error can abort processing).  A malformed
record — empty (stripped, lowercased) word form, empty stripped tag, or a
*word form* containing embedded whitespace — is rejected by omission with no
counter change; a proper-noun tag (`NP…`), a conjugated-verb tag (`V…` whose
mood character at index 2 is neither `N` nor `P`) and a tag matching no known
prefix are rejected by omission with exactly their diagnostics counter
bumped. -/
theorem C8_decoder_rejections (form lema tag source_file : String)
    (stats : Stats) :
    (py_lower (py_strip form) = "" ∨ py_strip tag = "" ∨
        has_space (py_lower (py_strip form)) = true →
      parse_freeling_candidate form lema tag source_file stats = (none, stats)) ∧
    (py_lower (py_strip form) ≠ "" → py_strip tag ≠ "" →
      has_space (py_lower (py_strip form)) = false →
      str_starts (py_strip tag) "NP" = true →
      parse_freeling_candidate form lema tag source_file stats =
        (none, bump stats "freeling_skipped_np")) ∧
    (py_lower (py_strip form) ≠ "" → py_strip tag ≠ "" →
      has_space (py_lower (py_strip form)) = false →
      str_starts (py_strip tag) "V" = true →
      char_at (py_strip tag) 2 ≠ some 'N' → char_at (py_strip tag) 2 ≠ some 'P' →
      parse_freeling_candidate form lema tag source_file stats =
        (none, bump stats "freeling_skipped_conjugated_verbs")) ∧
    (py_lower (py_strip form) ≠ "" → py_strip tag ≠ "" →
      has_space (py_lower (py_strip form)) = false →
      (∀ p ∈ known_tag_starts, str_starts (py_strip tag) p = false) →
      parse_freeling_candidate form lema tag source_file stats =
        (none, bump stats "freeling_skipped_unknown_tag")) := by
  refine ⟨fun h => ?_, fun hf ht hs hnp => ?_, fun hf ht hs hV hN hP => ?_,
    fun hf ht hs hk => ?_⟩
  · rcases h with h | h | h <;> simp [parse_freeling_candidate, h]
  · simp [parse_freeling_candidate, hf, ht, hs, hnp]
  · obtain ⟨rest, hd⟩ := starts_V_data hV
    simp only [char_at, hd, List.get?_eq_getElem?, List.getElem?_cons_succ] at hN hP
    unfold parse_freeling_candidate
    simp [hf, ht, hs, str_starts, hd, List.isPrefixOf, char_at,
      List.get?_eq_getElem?, hN, hP]
  ·
    have hk00 := hk "NP" (by simp [known_tag_starts])
    have hk01 := hk "NC" (by simp [known_tag_starts])
    have hk02 := hk "AQ" (by simp [known_tag_starts])
    have hk03 := hk "AO" (by simp [known_tag_starts])
    have hk04 := hk "DA" (by simp [known_tag_starts])
    have hk05 := hk "DD" (by simp [known_tag_starts])
    have hk06 := hk "DI" (by simp [known_tag_starts])
    have hk07 := hk "DP" (by simp [known_tag_starts])
    have hk08 := hk "DT" (by simp [known_tag_starts])
    have hk09 := hk "DE" (by simp [known_tag_starts])
    have hk10 := hk "PP" (by simp [known_tag_starts])
    have hk11 := hk "PD" (by simp [known_tag_starts])
    have hk12 := hk "PR" (by simp [known_tag_starts])
    have hk13 := hk "PT" (by simp [known_tag_starts])
    have hk14 := hk "PI" (by simp [known_tag_starts])
    have hk15 := hk "PE" (by simp [known_tag_starts])
    have hk16 := hk "SP" (by simp [known_tag_starts])
    have hk17 := hk "CC" (by simp [known_tag_starts])
    have hk18 := hk "CS" (by simp [known_tag_starts])
    have hk19 := hk "RG" (by simp [known_tag_starts])
    have hk20 := hk "RN" (by simp [known_tag_starts])
    have hk21 := hk "I" (by simp [known_tag_starts])
    have hk22 := hk "V" (by simp [known_tag_starts])
    simp [parse_freeling_candidate, hf, ht, hs, hk00, hk01, hk02, hk03, hk04, hk05, hk06, hk07, hk08, hk09, hk10, hk11, hk12, hk13, hk14, hk15, hk16, hk17, hk18, hk19, hk20, hk21, hk22]

/-- Witness for C8 (amended) at a concrete input: a conjugated verb form
(`VMIP3S0`, indicative mood) is silently dropped with exactly the
conjugated-verbs counter bumped. -/
theorem C8_witness :
    parse_freeling_candidate "ama" "amar" "VMIP3S0" "MM.verbs" init_stats =
      (none, bump init_stats "freeling_skipped_conjugated_verbs") :=
  (C8_decoder_rejections "ama" "amar" "VMIP3S0" "MM.verbs" init_stats).2.2.1
    (by decide) (by decide) (by decide) (by decide) (by decide) (by decide)

/-! ## C9: duplicate handling in the curated parser -/

/-- C9: when a parsed curated line carries a word already stored, the stored
entry is replaced exactly when the new record's frequency strictly exceeds
the stored one (ties keep the first record), and the duplicates counter is
bumped either way. -/
theorem C9_duplicate_keeps_higher_frequency (store : List Entry)
    (current : List (String × ℕ)) (stats : Stats) (line : String)
    (eNew : Entry) (oldId : ℕ) (eOld : Entry)
    (hline : parse_current_line line = some eNew)
    (hdup : alookup current eNew.word = some oldId)
    (hold : store.get? oldId = some eOld) :
    parse_current_step (store, current, stats) line =
      if eOld.frequency < eNew.frequency then
        (store ++ [eNew], aupdate current eNew.word store.length,
         bump stats "current_duplicates")
      else (store, current, bump stats "current_duplicates") := by
  simp only [List.get?_eq_getElem?] at hold
  by_cases hc : eOld.frequency < eNew.frequency <;>
    simp [parse_current_step, hline, hdup, hold, hc]

/-- The curated record `casa … 500`. -/
def entry_casa_500 : Entry := ⟨"casa", "sustantivo", "f", "s", "casa", 500, "current"⟩

/-- The curated record `casa … 700`. -/
def entry_casa_700 : Entry := ⟨"casa", "sustantivo", "f", "s", "casa", 700, "current"⟩

/-- Witness for C9 at a concrete input: a second `casa` record with frequency
700 replaces the stored frequency-500 record. -/
theorem C9_witness :
    parse_current_step ([entry_casa_500], [("casa", 0)], init_stats)
        "casa|sustantivo|f|s|casa|700" =
      ([entry_casa_500, entry_casa_700], [("casa", 1)],
       bump init_stats "current_duplicates") :=
  (C9_duplicate_keeps_higher_frequency [entry_casa_500] [("casa", 0)] init_stats
    "casa|sustantivo|f|s|casa|700" entry_casa_700 0 entry_casa_500
    rfl rfl rfl).trans (by decide)

/-! ## C4: the accent-stripped-typo filter -/

theorem accent_hit_iff (store : List Entry) (current : List (String × ℕ))
    (doozan_raw : List (String × ℤ)) (raw_word : ℤ) (v : String) :
    accent_hit store current doozan_raw raw_word v = true ↔
      ∃ id e, alookup current v = some id ∧ store.get? id = some e ∧
        e.category = "verbo" ∧
        max 2000 (raw_word * 5) ≤ (alookup doozan_raw v).getD 0 := by
  unfold accent_hit
  simp only [List.get?_eq_getElem?]
  cases hl : alookup current v with
  | none => simp
  | some id =>
    cases hg : store[id]? with
    | none => simp [hg]
    | some e =>
      by_cases hc : e.category = "verbo" <;> simp [hg, hc]

theorem accent_probe_iff (store : List Entry) (current : List (String × ℕ))
    (doozan_raw : List (String × ℤ)) (raw_word : ℤ) :
    ∀ (rest before : List Char),
      accent_probe store current doozan_raw raw_word before rest = true ↔
        ∃ i, ∃ h : i < rest.length, ∃ repl,
          accent_map (rest.get ⟨i, h⟩) = some repl ∧
          accent_hit store current doozan_raw raw_word
            ⟨before ++ rest.take i ++ repl :: rest.drop (i + 1)⟩ = true := by
  intro rest
  induction rest with
  | nil => intro before; simp [accent_probe]
  | cons ch rest ih =>
    intro before
    cases hmap : accent_map ch with
    | none =>
      have hl : accent_probe store current doozan_raw raw_word before (ch :: rest) =
          accent_probe store current doozan_raw raw_word (before ++ [ch]) rest := by
        simp [accent_probe, hmap]
      rw [hl, ih (before ++ [ch])]
      constructor
      · rintro ⟨i, h, repl, hm, hh⟩
        refine ⟨i + 1, Nat.succ_lt_succ h, repl, by simpa using hm, ?_⟩
        simpa [List.append_assoc] using hh
      · rintro ⟨i, h, repl, hm, hh⟩
        cases i with
        | zero => simp [hmap] at hm
        | succ j =>
          refine ⟨j, Nat.lt_of_succ_lt_succ h, repl, by simpa using hm, ?_⟩
          simpa [List.append_assoc] using hh
    | some repl =>
      by_cases hhit : accent_hit store current doozan_raw raw_word
          ⟨before ++ repl :: rest⟩ = true
      · refine iff_of_true (by simp [accent_probe, hmap, hhit]) ?_
        exact ⟨0, Nat.succ_pos _, repl, by simp [hmap], by simpa using hhit⟩
      · have hf : accent_hit store current doozan_raw raw_word
            ⟨before ++ repl :: rest⟩ = false := by
          simpa using hhit
        have hl : accent_probe store current doozan_raw raw_word before (ch :: rest) =
            accent_probe store current doozan_raw raw_word (before ++ [ch]) rest := by
          simp [accent_probe, hmap, hf]
        rw [hl, ih (before ++ [ch])]
        constructor
        · rintro ⟨i, h, repl', hm, hh⟩
          refine ⟨i + 1, Nat.succ_lt_succ h, repl', by simpa using hm, ?_⟩
          simpa [List.append_assoc] using hh
        · rintro ⟨i, h, repl', hm, hh⟩
          cases i with
          | zero =>
            have hm2 : accent_map ch = some repl' := by simpa using hm
            rw [hmap] at hm2
            obtain rfl : repl = repl' := Option.some.inj hm2
            simp only [List.take_zero, List.drop_succ_cons, List.drop_zero,
              List.append_nil, List.nil_append] at hh
            exact absurd hh (by simp [hf])
          | succ j =>
            refine ⟨j, Nat.lt_of_succ_lt_succ h, repl', by simpa using hm, ?_⟩
            simpa [List.append_assoc] using hh

/-- C4: the accent-stripped-typo filter fires exactly when: the category is
noun, adjective, adverb or other; the word has no accented vowel; and some
position of the word holds a bare vowel whose accented substitution is a
curated entry of category `verbo` whose raw corpus count is at least
`max(2000, 5 × the word's raw count)`, absent counts reading as 0. -/
theorem C4_accent_filter_iff (word category : String) (store : List Entry)
    (current : List (String × ℕ)) (doozan_raw : List (String × ℤ)) :
    is_probable_unaccented_verb_variant word category store current doozan_raw = true ↔
      (category = "sustantivo" ∨ category = "adjetivo" ∨ category = "adverbio" ∨
        category = "otro") ∧
      (∀ ch ∈ word.data, ¬ accented_vowels.contains ch = true) ∧
      (∃ i, ∃ h : i < word.data.length, ∃ repl,
        accent_map (word.data.get ⟨i, h⟩) = some repl ∧
        ∃ id e,
          alookup current ⟨word.data.take i ++ repl :: word.data.drop (i + 1)⟩ =
            some id ∧
          store.get? id = some e ∧ e.category = "verbo" ∧
          max 2000 ((alookup doozan_raw word).getD 0 * 5) ≤
            (alookup doozan_raw
              ⟨word.data.take i ++ repl :: word.data.drop (i + 1)⟩).getD 0) := by
  unfold is_probable_unaccented_verb_variant
  by_cases hcat : category = "sustantivo" ∨ category = "adjetivo" ∨
      category = "adverbio" ∨ category = "otro"
  case neg =>
    rw [if_pos hcat]
    exact iff_of_false (by simp) (fun h => hcat h.1)
  · rw [if_neg (not_not_intro hcat)]
    by_cases hacc : word.data.any (fun ch => accented_vowels.contains ch) = true
    · rw [if_pos hacc]
      refine iff_of_false (by simp) ?_
      rintro ⟨-, hno, -⟩
      obtain ⟨ch, hmem, hch⟩ := List.any_eq_true.mp hacc
      exact hno ch hmem hch
    · rw [if_neg hacc]
      rw [accent_probe_iff store current doozan_raw
        ((alookup doozan_raw word).getD 0) word.data []]
      constructor
      · rintro ⟨i, h, repl, hm, hh⟩
        refine ⟨hcat, ?_, i, h, repl, hm, ?_⟩
        · intro ch hmem hch
          exact hacc (List.any_eq_true.mpr ⟨ch, hmem, hch⟩)
        · rw [accent_hit_iff] at hh
          simpa using hh
      · rintro ⟨-, -, i, h, repl, hm, hrest⟩
        refine ⟨i, h, repl, hm, ?_⟩
        rw [accent_hit_iff]
        simpa using hrest

/-- The curated accented verb `camíno` backing the C4 witness. -/
def entry_camino_verb : Entry :=
  ⟨"camíno", "verbo", "_", "_", "caminar", 900, "current"⟩

/-- Witness for C4 at a concrete input: inferred noun `camino` (raw count 10)
is flagged because curated verb `camíno` has raw count 5000 ≥ max(2000, 50). -/
theorem C4_witness :
    is_probable_unaccented_verb_variant "camino" "sustantivo"
      [entry_camino_verb] [("camíno", 0)]
      [("camíno", 5000), ("camino", 10)] = true :=
  (C4_accent_filter_iff "camino" "sustantivo" [entry_camino_verb]
    [("camíno", 0)] [("camíno", 5000), ("camino", 10)]).mpr
    ⟨Or.inl rfl, by decide,
     ⟨3, by decide, 'í', by decide, 0, entry_camino_verb, by decide, by decide,
      rfl, by decide⟩⟩

/-! ## C2: the Frequency Normalizer -/

/-- Justification of the exact-integer embedding of the float expression in
`load_doozan_frequency`: for a positive count `c`, the truncated value
`int((log10 c / log10 M) * 1000) = ⌊1000·log_M c⌋' equals
`Nat.log M (c ^ 1000)` (the expression is non-negative, so `int` truncation
is the floor). -/
theorem natLog_pow_eq_floor_logb (M c : ℕ) (hc : 0 < c) :
    (Nat.log M (c ^ 1000) : ℤ) = ⌊(1000 : ℝ) * Real.logb M c⌋ := by
  have h2 : ((c : ℝ)) ^ 1000 = ((c ^ 1000 : ℕ) : ℝ) := by push_cast; ring
  calc (Nat.log M (c ^ 1000) : ℤ)
      = Int.log M ((c ^ 1000 : ℕ) : ℝ) := (Int.log_natCast M (c ^ 1000)).symm
    _ = ⌊Real.logb M ((c ^ 1000 : ℕ) : ℝ)⌋ :=
        (Real.floor_logb_natCast (by positivity)).symm
    _ = ⌊Real.logb M ((c : ℝ) ^ 1000)⌋ := by rw [h2]
    _ = ⌊(1000 : ℝ) * Real.logb M c⌋ := by rw [Real.logb_pow]; norm_num

/-- C2 (amended): against a corpus maximum `M ≥ 2`, a raw count `c ≤ 1`
scores 1, `c = M` scores exactly 1000, every score lies in `[1, 1000]`, and
for `c > 1` the score is `clamp(⌊1000·log_M c⌋, 1, 1000)` — the floor
(Python `int` truncation), not the rounding, of the log expression — where
the floor is characterised by `M ^ k ≤ c ^ 1000 < M ^ (k + 1)`. -/
theorem C2_normalizer_score (M c : ℤ) (hM : 2 ≤ M) (hc : 1 ≤ c) :
    1 ≤ normalize_count M c ∧ normalize_count M c ≤ 1000 ∧
    (c = 1 → normalize_count M c = 1) ∧
    (c = M → normalize_count M c = 1000) ∧
    (∀ k : ℕ, 1 < c → M.toNat ^ k ≤ c.toNat ^ 1000 →
      c.toNat ^ 1000 < M.toNat ^ (k + 1) →
      normalize_count M c = max 1 (min 1000 (k : ℤ))) := by
  refine ⟨?_, ?_, ?_, ?_, ?_⟩
  · unfold normalize_count
    split_ifs with h
    · norm_num
    · exact le_max_left _ _
  · unfold normalize_count
    split_ifs with h
    · norm_num
    · exact max_le (by norm_num) (min_le_left _ _)
  · intro h
    subst h
    simp [normalize_count]
  · intro h
    subst h
    unfold normalize_count
    rw [if_neg (by omega)]
    rw [Nat.log_pow (by omega)]
    norm_num
  · intro k h1 hle hlt
    unfold normalize_count
    rw [if_neg (by omega)]
    rw [Nat.log_eq_of_pow_le_of_lt_pow hle hlt]

/-- Witness for C2 (amended) at the spec's own scenario: corpus maximum
1,000,000; raw count 1,000,000 normalizes to exactly 1000 and raw count 1 to
exactly 1. -/
theorem C2_witness :
    normalize_count 1000000 1000000 = 1000 ∧ normalize_count 1000000 1 = 1 :=
  ⟨(C2_normalizer_score 1000000 1000000 (by norm_num) (by norm_num)).2.2.2.1 rfl,
   (C2_normalizer_score 1000000 1 (by norm_num) (by norm_num)).2.2.1 rfl⟩

set_option maxRecDepth 8000 in
/-- C2 counterexample: the claim's formula uses `round`, but the source uses
`int(...)`, which truncates.  For corpus maximum 3 and raw count 2 the exact
value is `1000·log_3 2 ≈ 630.93`: the source computes 630 while the claimed
`clamp(round(1000·log10 2 / log10 3), 1, 1000)` is 631. -/
theorem C2_counterexample :
    normalize_count 3 2 = 630 ∧
    max 1 (min 1000 (round ((Real.logb 10 2 / Real.logb 10 3) * 1000))) = 631 ∧
    (630 : ℤ) ≠ 631 := by
  have hlog : Nat.log 3 (2 ^ 1000) = 630 :=
    Nat.log_eq_of_pow_le_of_lt_pow (by decide) (by decide)
  refine ⟨?_, ?_, by decide⟩
  · unfold normalize_count
    rw [if_neg (by norm_num)]
    simp only [show ((3 : ℤ).toNat) = 3 from rfl, show ((2 : ℤ).toNat) = 2 from rfl,
      hlog]
    decide
  · have hl3 : (0 : ℝ) < Real.log 3 := Real.log_pos (by norm_num)
    have hlog10 : (0 : ℝ) < Real.log 10 := Real.log_pos (by norm_num)
    have h10 : Real.log 10 ≠ 0 := ne_of_gt hlog10
    have h3 : Real.log 3 ≠ 0 := ne_of_gt hl3
    have hx : Real.logb 10 2 / Real.logb 10 3 = Real.log 2 / Real.log 3 := by
      rw [Real.logb, Real.logb]
      field_simp
    have hnat1 : (3 : ℕ) ^ 1261 ≤ 2 ^ 2000 := by decide
    have hnat2 : (2 : ℕ) ^ 1000 < 3 ^ 631 := by decide
    have hr1 : ((3 : ℝ)) ^ (1261 : ℕ) ≤ (2 : ℝ) ^ (2000 : ℕ) := by exact_mod_cast hnat1
    have hr2 : ((2 : ℝ)) ^ (1000 : ℕ) < (3 : ℝ) ^ (631 : ℕ) := by exact_mod_cast hnat2
    have hlow : (1261 : ℝ) * Real.log 3 ≤ 2000 * Real.log 2 := by
      have h := Real.log_le_log (by positivity) hr1
      rw [Real.log_pow, Real.log_pow] at h
      exact_mod_cast h
    have hupp : (1000 : ℝ) * Real.log 2 < 631 * Real.log 3 := by
      have h := Real.log_lt_log (by positivity) hr2
      rw [Real.log_pow, Real.log_pow] at h
      exact_mod_cast h
    have hxb : Real.logb 10 2 / Real.logb 10 3 * 1000 =
        Real.log 2 * 1000 / Real.log 3 := by
      rw [hx]; ring
    have hlb : (630.5 : ℝ) ≤ Real.log 2 * 1000 / Real.log 3 := by
      rw [le_div_iff hl3]; linarith
    have hub : Real.log 2 * 1000 / Real.log 3 < 631 := by
      rw [div_lt_iff hl3]; linarith
    have hround : round (Real.logb 10 2 / Real.logb 10 3 * 1000) = 631 := by
      rw [hxb, round_eq, Int.floor_eq_iff]
      constructor
      · push_cast
        linarith
      · push_cast
        linarith
    rw [hround]
    decide

/-! ## Association-list lemmas -/

theorem alookup_append_some {α : Type} {l₁ : List (String × α)}
    (l₂ : List (String × α)) {k : String} {v : α} (h : alookup l₁ k = some v) :
    alookup (l₁ ++ l₂) k = some v := by
  induction l₁ with
  | nil => simp [alookup] at h
  | cons p rest ih =>
    obtain ⟨k', v'⟩ := p
    rw [List.cons_append]
    by_cases hk : k' = k
    · simp only [alookup, if_pos hk] at h ⊢
      exact h
    · simp only [alookup, if_neg hk] at h ⊢
      exact ih h

theorem alookup_append_none {α : Type} {l₁ : List (String × α)}
    (l₂ : List (String × α)) {k : String} (h : alookup l₁ k = none) :
    alookup (l₁ ++ l₂) k = alookup l₂ k := by
  induction l₁ with
  | nil => simp
  | cons p rest ih =>
    obtain ⟨k', v'⟩ := p
    rw [List.cons_append]
    by_cases hk : k' = k
    · simp [alookup, hk] at h
    · simp only [alookup, if_neg hk] at h ⊢
      exact ih h

theorem alookup_mem {α : Type} {l : List (String × α)} {k : String} {v : α}
    (h : alookup l k = some v) : (k, v) ∈ l := by
  induction l with
  | nil => simp [alookup] at h
  | cons p rest ih =>
    obtain ⟨k', v'⟩ := p
    by_cases hk : k' = k
    · simp only [alookup, if_pos hk] at h
      obtain rfl : v' = v := Option.some.inj h
      subst hk
      exact List.mem_cons_self _ _
    · simp only [alookup, if_neg hk] at h
      exact List.mem_cons_of_mem _ (ih h)

theorem alookup_singleton_same {α : Type} (k : String) (v : α) :
    alookup [(k, v)] k = some v := by simp [alookup]

/-! ## Field preservation through merge and frequency assignment -/

/-- What the merge step guarantees for an already-stored entry: word,
category, gender, number and source are untouched, and the lemma can only go
from empty to non-empty. -/
def preserves_gnc (e₀ e₁ : Entry) : Prop :=
  e₁.word = e₀.word ∧ e₁.category = e₀.category ∧ e₁.gender = e₀.gender ∧
  e₁.number = e₀.number ∧ e₁.source = e₀.source ∧
  (e₁.lema = e₀.lema ∨ (e₀.lema = "" ∧ e₁.lema ≠ ""))

theorem preserves_gnc_refl (e : Entry) : preserves_gnc e e :=
  ⟨rfl, rfl, rfl, rfl, rfl, Or.inl rfl⟩

theorem preserves_gnc_trans {e₀ e₁ e₂ : Entry} (h₁ : preserves_gnc e₀ e₁)
    (h₂ : preserves_gnc e₁ e₂) : preserves_gnc e₀ e₂ := by
  obtain ⟨w1, c1, g1, n1, s1, l1⟩ := h₁
  obtain ⟨w2, c2, g2, n2, s2, l2⟩ := h₂
  refine ⟨w2.trans w1, c2.trans c1, g2.trans g1, n2.trans n1, s2.trans s1, ?_⟩
  rcases l1 with l1 | ⟨l1e, l1n⟩
  · rcases l2 with l2 | ⟨l2e, l2n⟩
    · exact Or.inl (l2.trans l1)
    · exact Or.inr ⟨l1 ▸ l2e, l2n⟩
  · rcases l2 with l2 | ⟨l2e, l2n⟩
    · exact Or.inr ⟨l1e, l2 ▸ l1n⟩
    · exact absurd l2e l1n

/-- The invariant maintained by the fold of `merge_entries`: the store only
grows, all dict ids are valid and distinct, curated words keep their store
index (object sharing), and stored entries only evolve by lemma back-fill. -/
def merge_inv (store₀ : List Entry) (current : List (String × ℕ))
    (st : List Entry × List (String × ℕ) × Stats) : Prop :=
  store₀.length ≤ st.1.length ∧
  (∀ p ∈ st.2.1, p.2 < st.1.length) ∧
  (st.2.1.map Prod.snd).Nodup ∧
  (∀ w i, alookup current w = some i → alookup st.2.1 w = some i) ∧
  (∀ i e₀, store₀.get? i = some e₀ → ∃ e, st.1.get? i = some e ∧
    preserves_gnc e₀ e ∧ e.frequency = e₀.frequency)

theorem merge_step_inv {store₀ : List Entry} {current : List (String × ℕ)}
    {vocab : List String} {raw : List (String × ℤ)}
    {st : List Entry × List (String × ℕ) × Stats}
    (hinv : merge_inv store₀ current st) (g : String × List Candidate) :
    merge_inv store₀ current (merge_step current vocab raw st g) := by
  obtain ⟨store, final, stats⟩ := st
  obtain ⟨h1, h2, h3, h4, h5⟩ := hinv
  unfold merge_step
  cases hb : select_best_candidate g.2 with
  | none => exact ⟨h1, h2, h3, h4, h5⟩
  | some best =>
    simp only
    cases hf : alookup final g.1 with
    | some id =>
      simp only
      cases hg : store.get? id with
      | none => exact ⟨h1, h2, h3, h4, h5⟩
      | some e =>
        simp only
        by_cases hcond : e.lema = "" ∧ best.lema ≠ ""
        · rw [if_pos hcond]
          have hidlt : id < store.length := (List.get?_eq_some.mp hg).1
          refine ⟨by simpa using h1, by simpa using h2, h3, h4, ?_⟩
          intro i e₀ he₀
          obtain ⟨e₁, hget, hpres, hfreq⟩ := h5 i e₀ he₀
          by_cases hi : id = i
          · subst hi
            obtain rfl : e₁ = e := by rw [hget] at hg; exact Option.some.inj hg
            refine ⟨{ e₁ with lema := best.lema },
              by rw [List.get?_set_eq_of_lt _ hidlt], ?_, hfreq⟩
            refine preserves_gnc_trans hpres ⟨rfl, rfl, rfl, rfl, rfl, ?_⟩
            exact Or.inr ⟨hcond.1, hcond.2⟩
          · exact ⟨e₁, by rw [List.get?_set_ne _ _ hi]; exact hget, hpres, hfreq⟩
        · rw [if_neg hcond]
          exact ⟨h1, h2, h3, h4, h5⟩
    | none =>
      simp only
      by_cases hverb : best.category = "verbo" ∧ ¬ vocab.contains g.1 = true
      · rw [if_pos hverb]
        exact ⟨h1, h2, h3, h4, h5⟩
      · rw [if_neg hverb]
        by_cases hprob : is_probable_unaccented_verb_variant g.1 best.category
            store current raw = true
        · rw [if_pos hprob]
          exact ⟨h1, h2, h3, h4, h5⟩
        · rw [if_neg hprob]
          refine ⟨?_, ?_, ?_, ?_, ?_⟩
          · simpa using Nat.le_succ_of_le h1
          · intro p hp
            rcases List.mem_append.mp hp with hp | hp
            · simpa using Nat.lt_succ_of_lt (h2 p hp)
            · obtain rfl : p = (g.1, store.length) := by simpa using hp
              simp
          · rw [List.map_append]
            refine List.Nodup.append h3 (by simp) ?_
            intro a ha hb2
            obtain rfl : a = store.length := by simpa using hb2
            obtain ⟨p, hp, hps⟩ := List.mem_map.mp ha
            exact absurd (hps ▸ h2 p hp) (lt_irrefl _)
          · intro w i hw
            exact alookup_append_some _ (h4 w i hw)
          · intro i e₀ he₀
            obtain ⟨e₁, hget, hpres, hfreq⟩ := h5 i e₀ he₀
            have hilt : i < store.length := (List.get?_eq_some.mp hget).1
            exact ⟨e₁, by rw [List.get?_append hilt]; exact hget, hpres, hfreq⟩

theorem merge_foldl_inv {store₀ : List Entry} {current : List (String × ℕ)}
    {vocab : List String} {raw : List (String × ℤ)}
    (gs : List (String × List Candidate))
    {st : List Entry × List (String × ℕ) × Stats}
    (hinv : merge_inv store₀ current st) :
    merge_inv store₀ current (gs.foldl (merge_step current vocab raw) st) := by
  induction gs generalizing st with
  | nil => exact hinv
  | cons g rest ih => exact ih (merge_step_inv hinv g)

theorem merge_entries_inv (store₀ : List Entry) (current : List (String × ℕ))
    (cands : List (String × List Candidate)) (vocab : List String)
    (raw : List (String × ℤ)) (stats : Stats)
    (hv : ∀ p ∈ current, p.2 < store₀.length)
    (hnd : (current.map Prod.snd).Nodup) :
    merge_inv store₀ current
      (merge_entries store₀ current cands vocab raw stats) := by
  unfold merge_entries
  exact merge_foldl_inv cands
    ⟨le_refl _, hv, hnd, fun w i h => h,
     fun i e₀ h => ⟨e₀, h, preserves_gnc_refl e₀, rfl⟩⟩

/-! ## Frequency assignment lemmas -/

/-- The frequency `assign_frequencies` gives the entry `e` stored for word
`w`: the corpus-normalized score when the word is corpus-backed, else 1 for
inferred entries and the clamped existing frequency for curated ones. -/
def assign_rule (doozan_freq : List (String × ℤ)) (w : String) (e : Entry) : ℤ :=
  match alookup doozan_freq w with
  | some f => f
  | none => if e.source = "freeling" then 1 else max 1 e.frequency

theorem assign_step_get_ne (freq : List (String × ℤ)) (store : List Entry)
    (p : String × ℕ) (i : ℕ) (h : p.2 ≠ i) :
    (assign_step freq store p).get? i = store.get? i := by
  unfold assign_step
  cases hg : store.get? p.2 with
  | none => rfl
  | some e =>
    cases halk : alookup freq p.1 with
    | some f => exact List.get?_set_ne _ _ h
    | none =>
      simp only
      by_cases hsrc : e.source = "freeling"
      · rw [if_pos hsrc]
        exact List.get?_set_ne _ _ h
      · rw [if_neg hsrc]
        exact List.get?_set_ne _ _ h

theorem assign_not_mem (freq : List (String × ℤ)) :
    ∀ (entries : List (String × ℕ)) (store : List Entry) (i : ℕ),
      i ∉ entries.map Prod.snd →
      (assign_frequencies store entries freq).get? i = store.get? i := by
  intro entries
  induction entries with
  | nil => intro store i _; rfl
  | cons p rest ih =>
    intro store i h
    simp only [List.map_cons, List.mem_cons] at h
    push_neg at h
    calc (assign_frequencies store (p :: rest) freq).get? i
        = (assign_frequencies (assign_step freq store p) rest freq).get? i := rfl
      _ = (assign_step freq store p).get? i := ih _ i h.2
      _ = store.get? i := assign_step_get_ne freq store p i (fun hc => h.1 hc.symm)

theorem assign_get_of_mem (freq : List (String × ℤ)) :
    ∀ (entries : List (String × ℕ)) (store : List Entry) (w : String) (i : ℕ)
      (e : Entry), (w, i) ∈ entries → (entries.map Prod.snd).Nodup →
      store.get? i = some e →
      (assign_frequencies store entries freq).get? i =
        some { e with frequency := assign_rule freq w e } := by
  intro entries
  induction entries with
  | nil => intro store w i e hmem _ _; cases hmem
  | cons p rest ih =>
    intro store w i e hmem hnd he
    have hlt : i < store.length := (List.get?_eq_some.mp he).1
    rcases List.mem_cons.mp hmem with heq | hmem'
    · obtain rfl : p = (w, i) := heq.symm
      have he2 : store[i]? = some e := by
        rw [← List.get?_eq_getElem?]
        exact he
      have hstep : assign_step freq store (w, i) =
          store.set i { e with frequency := assign_rule freq w e } := by
        cases halk : alookup freq w with
        | some f => simp [assign_step, assign_rule, he2, halk]
        | none =>
          by_cases hsrc : e.source = "freeling" <;>
            simp [assign_step, assign_rule, he2, halk, hsrc]
      have hni : i ∉ rest.map Prod.snd := by
        simp only [List.map_cons, List.nodup_cons] at hnd
        exact hnd.1
      calc (assign_frequencies store ((w, i) :: rest) freq).get? i
          = (assign_frequencies (assign_step freq store (w, i)) rest freq).get? i := rfl
        _ = (assign_step freq store (w, i)).get? i := assign_not_mem freq rest _ i hni
        _ = some { e with frequency := assign_rule freq w e } := by
            rw [hstep]
            exact List.get?_set_eq_of_lt _ hlt
    · have hne : p.2 ≠ i := by
        intro hc
        simp only [List.map_cons, List.nodup_cons] at hnd
        exact hnd.1 (hc ▸ List.mem_map.mpr ⟨(w, i), hmem', rfl⟩)
      have hstore : (assign_step freq store p).get? i = some e := by
        rw [assign_step_get_ne freq store p i hne]
        exact he
      exact ih _ w i e hmem' (by
        simp only [List.map_cons, List.nodup_cons] at hnd
        exact hnd.2) hstore

/-! ## C1 and C10: curated precedence and write-through -/

/-- C1 (amended): for every curated word, the merged-and-frequency-assigned
mapping still binds the word (to the same shared entry), with category,
gender and number exactly the curated values, the lemma unchanged or
back-filled from empty to non-empty, and the frequency equal to the
corpus-normalized score when the word is in the frequency table and to the
(clamped) curated frequency otherwise — so the curated frequency is *not*
preserved for corpus-backed words. -/
theorem C1_curated_precedence (store₀ : List Entry) (current : List (String × ℕ))
    (cands : List (String × List Candidate)) (vocab : List String)
    (raw freq : List (String × ℤ)) (stats : Stats)
    (hv : ∀ p ∈ current, p.2 < store₀.length)
    (hnd : (current.map Prod.snd).Nodup)
    (w : String) (i : ℕ) (e₀ : Entry)
    (hw : alookup current w = some i) (he : store₀.get? i = some e₀)
    (hsrc : e₀.source = "current") :
    ∃ e₂,
      alookup (merge_entries store₀ current cands vocab raw stats).2.1 w = some i ∧
      (assign_frequencies (merge_entries store₀ current cands vocab raw stats).1
          (merge_entries store₀ current cands vocab raw stats).2.1 freq).get? i =
        some e₂ ∧
      e₂.category = e₀.category ∧ e₂.gender = e₀.gender ∧ e₂.number = e₀.number ∧
      (e₂.lema = e₀.lema ∨ (e₀.lema = "" ∧ e₂.lema ≠ "")) ∧
      e₂.frequency = (match alookup freq w with
        | some f => f
        | none => max 1 e₀.frequency) := by
  obtain ⟨h1, h2, h3, h4, h5⟩ :=
    merge_entries_inv store₀ current cands vocab raw stats hv hnd
  have hfw := h4 w i hw
  obtain ⟨e₁, hget, hpres, hfreq⟩ := h5 i e₀ he
  have hmem := alookup_mem hfw
  have hassign := assign_get_of_mem freq _ _ w i e₁ hmem h3 hget
  refine ⟨{ e₁ with frequency := assign_rule freq w e₁ }, hfw, hassign,
    hpres.2.1, hpres.2.2.1, hpres.2.2.2.1, hpres.2.2.2.2.2, ?_⟩
  have hs : e₁.source = "current" := hpres.2.2.2.2.1.trans hsrc
  show assign_rule freq w e₁ = _
  unfold assign_rule
  cases halk : alookup freq w with
  | some f => rfl
  | none =>
    simp only
    rw [if_neg (by rw [hs]; decide), hfreq]

/-- C1 counterexample: a curated word present in the frequency corpus does
*not* keep its curated frequency.  Curated `casa` has frequency 500; the
corpus line `casa 1` normalizes to score 1, and the output entry for `casa`
carries frequency 1 ≠ 500 (everything else is unchanged). -/
theorem C1_counterexample :
    load_doozan_frequency ["casa 1"] init_stats =
      Except.ok ([("casa", 1)], [("casa", 1)],
        adict_set init_stats "doozan_max_raw" 1) ∧
    (assign_frequencies
        (merge_entries [entry_casa_500] [("casa", 0)] [] ["casa"] [("casa", 1)]
          init_stats).1
        (merge_entries [entry_casa_500] [("casa", 0)] [] ["casa"] [("casa", 1)]
          init_stats).2.1
        [("casa", 1)]).get? 0 =
      some { entry_casa_500 with frequency := 1 } ∧
    entry_casa_500.frequency = 500 ∧ ((1 : ℤ) = 500 → False) :=
  ⟨rfl, rfl, rfl, by decide⟩

/-- Witness for C1 (amended) at a concrete input: curated `casa` (frequency
500) with a competing analyzer reading and corpus score 900 ends with
category/gender/number intact and frequency 900. -/
theorem C1_witness :
    ∃ e₂,
      alookup (merge_entries [entry_casa_500] [("casa", 0)]
          [("casa", [cand_noun])] ["casa"] [("casa", 900)] init_stats).2.1
        "casa" = some 0 ∧
      (assign_frequencies
          (merge_entries [entry_casa_500] [("casa", 0)] [("casa", [cand_noun])]
            ["casa"] [("casa", 900)] init_stats).1
          (merge_entries [entry_casa_500] [("casa", 0)] [("casa", [cand_noun])]
            ["casa"] [("casa", 900)] init_stats).2.1
          [("casa", 900)]).get? 0 = some e₂ ∧
      e₂.category = entry_casa_500.category ∧
      e₂.gender = entry_casa_500.gender ∧
      e₂.number = entry_casa_500.number ∧
      (e₂.lema = entry_casa_500.lema ∨
        (entry_casa_500.lema = "" ∧ e₂.lema ≠ "")) ∧
      e₂.frequency = (match alookup [("casa", 900)] "casa" with
        | some f => f
        | none => max 1 entry_casa_500.frequency) :=
  C1_curated_precedence [entry_casa_500] [("casa", 0)] [("casa", [cand_noun])]
    ["casa"] [("casa", 900)] [("casa", 900)] init_stats
    (by simp) (by simp) "casa" 0 entry_casa_500 rfl rfl rfl

/-- C10: `merge_entries` starts from a shallow copy of the curated dict, so a
curated word is bound in the final dict to the *same* store index — the same
`Entry` object — as in the caller's curated dict; hence the lemma back-fill
and the in-place frequency assignment are visible through the caller's
curated mapping.  Over the whole merge step the shared entry's word,
category, gender, number and source fields are never written; only the lemma
(empty to non-empty) and the frequency can change. -/
theorem C10_merge_write_through (store₀ : List Entry)
    (current : List (String × ℕ)) (cands : List (String × List Candidate))
    (vocab : List String) (raw freq : List (String × ℤ)) (stats : Stats)
    (hv : ∀ p ∈ current, p.2 < store₀.length)
    (hnd : (current.map Prod.snd).Nodup)
    (w : String) (i : ℕ) (e₀ : Entry)
    (hw : alookup current w = some i) (he : store₀.get? i = some e₀) :
    alookup (merge_entries store₀ current cands vocab raw stats).2.1 w = some i ∧
    ∃ e₂,
      (assign_frequencies (merge_entries store₀ current cands vocab raw stats).1
          (merge_entries store₀ current cands vocab raw stats).2.1 freq).get? i =
        some e₂ ∧
      e₂.word = e₀.word ∧ e₂.category = e₀.category ∧ e₂.gender = e₀.gender ∧
      e₂.number = e₀.number ∧ e₂.source = e₀.source ∧
      (e₂.lema = e₀.lema ∨ (e₀.lema = "" ∧ e₂.lema ≠ "")) := by
  obtain ⟨h1, h2, h3, h4, h5⟩ :=
    merge_entries_inv store₀ current cands vocab raw stats hv hnd
  have hfw := h4 w i hw
  obtain ⟨e₁, hget, hpres, hfreq⟩ := h5 i e₀ he
  have hassign := assign_get_of_mem freq _ _ w i e₁ (alookup_mem hfw) h3 hget
  exact ⟨hfw, { e₁ with frequency := assign_rule freq w e₁ }, hassign,
    hpres.1, hpres.2.1, hpres.2.2.1, hpres.2.2.2.1, hpres.2.2.2.2.1,
    hpres.2.2.2.2.2⟩

/-- Curated `casa` with an empty lemma, for the C10 witness. -/
def entry_casa_nolema : Entry :=
  ⟨"casa", "sustantivo", "f", "s", "", 500, "current"⟩

/-- Witness for C10 at a concrete input with an actual lemma back-fill: the
curated entry for `casa` has an empty lemma, the analyzer offers lemma
`casa`, and after merge the entry visible through the curated dict (index 0)
has a non-empty lemma with all grammatical fields intact. -/
theorem C10_witness :
    alookup (merge_entries [entry_casa_nolema] [("casa", 0)]
        [("casa", [cand_noun])] [] [] init_stats).2.1 "casa" = some 0 ∧
    ∃ e₂,
      (assign_frequencies
          (merge_entries [entry_casa_nolema] [("casa", 0)]
            [("casa", [cand_noun])] [] [] init_stats).1
          (merge_entries [entry_casa_nolema] [("casa", 0)]
            [("casa", [cand_noun])] [] [] init_stats).2.1 []).get? 0 =
        some e₂ ∧
      e₂.word = entry_casa_nolema.word ∧
      e₂.category = entry_casa_nolema.category ∧
      e₂.gender = entry_casa_nolema.gender ∧
      e₂.number = entry_casa_nolema.number ∧
      e₂.source = entry_casa_nolema.source ∧
      (e₂.lema = entry_casa_nolema.lema ∨
        (entry_casa_nolema.lema = "" ∧ e₂.lema ≠ "")) :=
  C10_merge_write_through [entry_casa_nolema] [("casa", 0)]
    [("casa", [cand_noun])] [] [] [] init_stats (by simp) (by simp)
    "casa" 0 entry_casa_nolema rfl rfl

/-! ## C5: the unsupported-infinitive filter -/

theorem alookup_append_singleton_ne {α : Type} (l : List (String × α))
    {k w : String} (v : α) (h : k ≠ w) :
    alookup (l ++ [(k, v)]) w = alookup l w := by
  induction l with
  | nil => simp [alookup, h]
  | cons p rest ih =>
    obtain ⟨k', v'⟩ := p
    rw [List.cons_append]
    by_cases hk : k' = w
    · simp only [alookup, if_pos hk]
    · simp only [alookup, if_neg hk]
      exact ih

/-- The accent filter never fires on a verb candidate (its category gate only
admits noun, adjective, adverb and other). -/
theorem is_probable_verbo (w : String) (store : List Entry)
    (current : List (String × ℕ)) (raw : List (String × ℤ)) :
    is_probable_unaccented_verb_variant w "verbo" store current raw = false := by
  unfold is_probable_unaccented_verb_variant
  rw [if_pos (by decide)]

/-- A merge step for another word group does not change what the final dict
binds `w` to. -/
theorem merge_step_other {current : List (String × ℕ)} {vocab : List String}
    {raw : List (String × ℤ)} {st : List Entry × List (String × ℕ) × Stats}
    {g : String × List Candidate} {w : String} (hne : g.1 ≠ w) :
    alookup (merge_step current vocab raw st g).2.1 w = alookup st.2.1 w := by
  obtain ⟨store, final, stats⟩ := st
  unfold merge_step
  cases hb : select_best_candidate g.2 with
  | none => rfl
  | some best =>
    simp only
    cases hf : alookup final g.1 with
    | some id =>
      simp only
      cases hg : store.get? id with
      | none => rfl
      | some e =>
        simp only
        by_cases hcond : e.lema = "" ∧ best.lema ≠ ""
        · rw [if_pos hcond]
        · rw [if_neg hcond]
    | none =>
      simp only
      by_cases hverb : best.category = "verbo" ∧ ¬ vocab.contains g.1 = true
      · rw [if_pos hverb]
      · rw [if_neg hverb]
        by_cases hprob : is_probable_unaccented_verb_variant g.1 best.category
            store current raw = true
        · rw [if_pos hprob]
        · rw [if_neg hprob]
          exact alookup_append_singleton_ne final _ hne

theorem merge_foldl_other {current : List (String × ℕ)} {vocab : List String}
    {raw : List (String × ℤ)} {w : String}
    (gs : List (String × List Candidate)) (hnk : w ∉ gs.map Prod.fst) :
    ∀ st : List Entry × List (String × ℕ) × Stats,
      alookup (gs.foldl (merge_step current vocab raw) st).2.1 w =
        alookup st.2.1 w := by
  induction gs with
  | nil => intro st; rfl
  | cons g rest ih =>
    intro st
    simp only [List.map_cons, List.mem_cons] at hnk
    push_neg at hnk
    rw [List.foldl_cons, ih hnk.2, merge_step_other (fun hc => hnk.1 hc.symm)]

/-- C5: an inferred candidate whose best reading is a verb, for a word not in
the curated dict, ends up in the final mapping exactly when the word is in
the frequency corpus vocabulary; otherwise it is omitted. -/
theorem C5_unsupported_infinitive_filter (store₀ : List Entry)
    (current : List (String × ℕ)) (cands : List (String × List Candidate))
    (vocab : List String) (raw : List (String × ℤ)) (stats : Stats)
    (hk : (cands.map Prod.fst).Nodup)
    (w : String) (g : List Candidate) (best : Candidate)
    (hg : (w, g) ∈ cands) (hbest : select_best_candidate g = some best)
    (hcat : best.category = "verbo") (hcur : alookup current w = none) :
    (alookup (merge_entries store₀ current cands vocab raw stats).2.1 w ≠ none ↔
      vocab.contains w = true) := by
  unfold merge_entries
  suffices h : ∀ (gs : List (String × List Candidate))
      (st : List Entry × List (String × ℕ) × Stats),
      (gs.map Prod.fst).Nodup → (w, g) ∈ gs → alookup st.2.1 w = none →
      (alookup (gs.foldl (merge_step current vocab raw) st).2.1 w ≠ none ↔
        vocab.contains w = true) from
    h cands (store₀, current, stats) hk hg hcur
  intro gs
  induction gs with
  | nil => intro st _ hmem _; cases hmem
  | cons p rest ih =>
    intro st hnd hmem hnone
    by_cases hw : p.1 = w
    · have hpg : p = (w, g) := by
        rcases List.mem_cons.mp hmem with h' | h'
        · exact h'.symm
        · exfalso
          simp only [List.map_cons, List.nodup_cons] at hnd
          exact hnd.1 (hw ▸ List.mem_map.mpr ⟨(w, g), h', rfl⟩)
      subst hpg
      obtain ⟨store, final, stats'⟩ := st
      have hrest : w ∉ rest.map Prod.fst := by
        simp only [List.map_cons, List.nodup_cons] at hnd
        exact hnd.1
      rw [List.foldl_cons]
      by_cases hvoc : vocab.contains w = true
      · have hstep : (merge_step current vocab raw (store, final, stats')
            (w, g)).2.1 = final ++ [(w, store.length)] := by
          unfold merge_step
          simp only [hbest]
          have hfin : alookup final w = none := hnone
          simp only [hfin]
          rw [if_neg (fun h => h.2 hvoc)]
          rw [if_neg (by simp [hcat, is_probable_verbo])]
        rw [merge_foldl_other rest hrest, hstep,
          alookup_append_none _ (hnone : alookup final w = none),
          alookup_singleton_same]
        simpa using hvoc
      · have hvf : vocab.contains w = false := by simpa using hvoc
        have hfin : alookup final w = none := hnone
        have hstep : (merge_step current vocab raw (store, final, stats')
            (w, g)).2.1 = final := by
          unfold merge_step
          simp only [hbest]
          simp only [hfin]
          rw [if_pos ⟨hcat, by simpa using hvf⟩]
        rw [merge_foldl_other rest hrest, hstep, hfin]
        exact iff_of_false (fun h => h rfl) hvoc
    · have hmem2 : (w, g) ∈ rest := by
        rcases List.mem_cons.mp hmem with h' | h'
        · exact absurd (congrArg Prod.fst h'.symm) hw
        · exact h'
      rw [List.foldl_cons]
      refine ih (merge_step current vocab raw st p) ?_ hmem2 ?_
      · simp only [List.map_cons, List.nodup_cons] at hnd
        exact hnd.2
      · rw [merge_step_other hw]
        exact hnone

/-- The inferred infinitive `caminar` for the C5 witness. -/
def cand_caminar : Candidate :=
  ⟨"caminar", "caminar", "verbo", "_", "_", "VMN0000", "MM.verbs"⟩

/-- Witness for C5 at the spec's own scenario: analyzer offers `caminar` as
an infinitive, `caminar` is absent from the frequency corpus, so it is not in
the output mapping. -/
theorem C5_witness :
    (alookup (merge_entries [] [] [("caminar", [cand_caminar])] [] []
        init_stats).2.1 "caminar" ≠ none ↔
      ([] : List String).contains "caminar" = true) ∧
    alookup (merge_entries [] [] [("caminar", [cand_caminar])] [] []
        init_stats).2.1 "caminar" = none :=
  ⟨C5_unsupported_infinitive_filter [] [] [("caminar", [cand_caminar])] [] []
    init_stats (by simp) "caminar" [cand_caminar] cand_caminar (by simp)
    rfl rfl rfl, rfl⟩

/-! ## C6: fatal configuration errors abort before output -/

/-- The `(raw_freq, max_raw)` part of the `load_doozan_frequency` scan, which
does not depend on the diagnostics counters. -/
def doozan_raw_scan (st : List (String × ℤ) × ℤ) (raw : String) :
    List (String × ℤ) × ℤ :=
  let (raw_freq, max_raw) := st
  let line := py_strip raw
  if line = "" ∨ str_starts line "#" then st
  else
    let split_result : Option (String × String) :=
      if line.data.contains '\t' then
        some ((py_split line '\t' 1).getD 0 "", (py_split line '\t' 1).getD 1 "")
      else
        match py_split_ws line with
        | w :: c :: _ => some (w, c)
        | _ => none
    match split_result with
    | none => (raw_freq, max_raw)
    | some (w, count_text) =>
      let word := py_lower (py_strip w)
      if word = "" then st
      else
        match py_int count_text with
        | none => (raw_freq, max_raw)
        | some count =>
          if count ≤ 0 then st
          else
            let better :=
              match alookup raw_freq word with
              | none => true
              | some prev => decide (prev < count)
            if better then
              (adict_set raw_freq word count,
               if max_raw < count then count else max_raw)
            else st

/-- The maximum positive raw count seen in the corpus lines (0 when none). -/
def doozan_max_raw (lines : List String) : ℤ :=
  (lines.foldl doozan_raw_scan ([], 0)).2

theorem load_doozan_step_raw (rf : List (String × ℤ)) (mr : ℤ) (s : Stats)
    (line : String) :
    ((load_doozan_step (rf, mr, s) line).1,
      (load_doozan_step (rf, mr, s) line).2.1) =
      doozan_raw_scan (rf, mr) line := by
  unfold load_doozan_step doozan_raw_scan
  simp only
  split
  · rfl
  · split
    · rfl
    · split
      · rfl
      · split
        · rfl
        · split
          · rfl
          · split
            · rfl
            · rfl

theorem load_doozan_foldl_raw (lines : List String) :
    ∀ (rf : List (String × ℤ)) (mr : ℤ) (s : Stats),
      ((lines.foldl load_doozan_step (rf, mr, s)).1,
        (lines.foldl load_doozan_step (rf, mr, s)).2.1) =
        lines.foldl doozan_raw_scan (rf, mr) := by
  induction lines with
  | nil => intro rf mr s; rfl
  | cons l rest ih =>
    intro rf mr s
    rw [List.foldl_cons, List.foldl_cons, ← load_doozan_step_raw rf mr s l]
    obtain ⟨a, b, c⟩ := load_doozan_step (rf, mr, s) l
    exact ih a b c

theorem load_doozan_error_iff (lines : List String) (s : Stats) :
    (∃ msg, load_doozan_frequency lines s = Except.error msg) ↔
      doozan_max_raw lines ≤ 0 := by
  unfold load_doozan_frequency
  have h := load_doozan_foldl_raw lines [] 0 s
  have hmr : (lines.foldl load_doozan_step ([], 0, s)).2.1 =
      doozan_max_raw lines := by
    unfold doozan_max_raw
    rw [← h]
  simp only [hmr]
  by_cases hc : doozan_max_raw lines ≤ 0
  · simp [hc]
  · simp [hc]

/-- C6: the two fatal-configuration conditions gate the output.  If the
frequency corpus yields no positive count, `build` aborts with the fatal
error and writes nothing; and whenever `build` does produce output, the
corpus had a positive count and the output is exactly `write_output` of a
merged state on which `validate` succeeded — so a missing or mismatching
anchor word (which makes `validate` return an error) means no output is
written. -/
theorem C6_fatal_aborts (cur : List String) (ff : List (String × List String))
    (dz : List String) :
    (doozan_max_raw dz ≤ 0 →
      build cur ff dz =
        Except.error "doozan frequency file had no positive counts") ∧
    (∀ out, build cur ff dz = Except.ok out →
      0 < doozan_max_raw dz ∧
      ∃ store final, validate store final = Except.ok () ∧
        out = write_output store final) := by
  constructor
  · intro h
    unfold build
    have hmr : (dz.foldl load_doozan_step ([], 0,
        (parse_current_dictionary cur
          (adict_set init_stats "freeling_files" (ff.length : ℤ))).2.2)).2.1 =
        doozan_max_raw dz :=
      congrArg Prod.snd (load_doozan_foldl_raw dz [] 0 _)
    have herr : load_doozan_frequency dz
        (parse_current_dictionary cur
          (adict_set init_stats "freeling_files" (ff.length : ℤ))).2.2 =
        Except.error "doozan frequency file had no positive counts" := by
      unfold load_doozan_frequency
      simp only [hmr]
      rw [if_pos h]
    simp only [herr]
  · intro out hok
    unfold build at hok
    simp only [] at hok
    split at hok
    · cases hok
    · rename_i nf rf s2 heq
      have hpos : 0 < doozan_max_raw dz := by
        by_contra hc
        push_neg at hc
        obtain ⟨msg, hm⟩ := (load_doozan_error_iff dz _).mpr hc
        rw [heq] at hm
        cases hm
      refine ⟨hpos, ?_⟩
      split at hok
      · cases hok
      · rename_i u heq2
        exact ⟨_, _, heq2, (Except.ok.inj hok).symm⟩

/-- Witness for C6 at a concrete input: an empty corpus has no positive
counts, so the whole build aborts fatally with no output. -/
theorem C6_witness :
    build [] [] [] =
      Except.error "doozan frequency file had no positive counts" :=
  (C6_fatal_aborts [] [] []).1 (by decide)
